import Mathlib

/-!
Verification of the MonadArena game simulators (poker card engine, betting
round, auction bidding, RPG combat) against their natural-language spec.
Python ints are modelled as `Int`, money amounts (Python floats used for
exact bookkeeping) as `ℚ`, and card ranks by their numeric `RANK_VALUES`
image (2..14), which the source uses for every comparison.
-/

namespace MonadArena

/-! ## Card engine (src/games/poker.py) -/

/-- Card from poker.py; `rank` holds the numeric value `RANK_VALUES[rank]`
(2..14) and `suit` indexes into SUITS (0..3). -/
structure Card where
  rank : Int
  suit : Int
deriving DecidableEq, Repr

/-- Card.value property: RANK_VALUES lookup, here the stored numeric rank. -/
def Card.value (c : Card) : Int := c.rank

/-- Insertion step for the sort used to model Python `sorted`. -/
def insertBy {α : Type} (le : α → α → Bool) (a : α) : List α → List α
  | [] => [a]
  | b :: bs => if le a b then a :: b :: bs else b :: insertBy le a bs

/-- Insertion sort modelling Python `sorted` with a boolean "comes before"
relation (all call sites below compare keys that are equal only for
identical elements, so stability is immaterial). -/
def sortBy {α : Type} (le : α → α → Bool) : List α → List α
  | [] => []
  | a :: as => insertBy le a (sortBy le as)

/-- Python `sorted(l, reverse=True)` on integers. -/
def sortDescInt (l : List Int) : List Int := sortBy (fun a b => b ≤ a) l

/-- Python list comparison `a < b` (elementwise lexicographic, a strict
prefix is smaller). -/
def pyListLt : List Int → List Int → Bool
  | [], [] => false
  | [], _ :: _ => true
  | _ :: _, [] => false
  | a :: as, b :: bs => a < b || (a == b && pyListLt as bs)

/-- Strict HandScore comparison used by evaluate_hand's running maximum:
`rank > best_rank or (rank == best_rank and tiebreak > best_tiebreak)`,
phrased as "old < new". -/
def scoreLt (old new : Int × List Int) : Bool :=
  old.1 < new.1 || (old.1 == new.1 && pyListLt old.2 new.2)

/-- Non-strict HandScore order (the total order of spec section 3). -/
def scoreLe (a b : Int × List Int) : Prop := scoreLt a b = true ∨ a = b

/-- _is_straight from poker.py: distinct values descending; a run of five
(`unique[0] - unique[4] == 4`) or the wheel `[14,5,4,3,2]`. -/
def isStraightV (values : List Int) : Bool :=
  let unique := sortDescInt values.dedup
  match unique with
  | a :: _ :: _ :: _ :: e :: _ =>
      a - e == 4 || unique == [14, 5, 4, 3, 2]
  | _ => false

/-- _evaluate_five from poker.py: score exactly five cards. -/
def evaluateFive (cards : List Card) : Int × List Int :=
  let values := sortDescInt (cards.map Card.value)
  let suits := cards.map Card.suit
  let isFlush := suits.dedup.length == 1
  let isStraight := isStraightV values
  let uniq := values.dedup
  let ranked := sortBy
    (fun x y : Nat × Int => y.1 < x.1 || (y.1 == x.1 && y.2 ≤ x.2))
    (uniq.map (fun v => (values.count v, v)))
  let counts := sortBy (fun a b : Nat => b ≤ a) (uniq.map (fun v => values.count v))
  let tiebreak := ranked.map (fun p => p.2)
  if isFlush && isStraight then
    if values.getD 0 0 == 14 then (9, values) else (8, values)
  else if counts == [4, 1] then (7, tiebreak)
  else if counts == [3, 2] then (6, tiebreak)
  else if isFlush then (5, values)
  else if isStraight then (4, values)
  else if counts == [3, 1, 1] then (3, tiebreak)
  else if counts == [2, 2, 1] then (2, tiebreak)
  else if counts == [2, 1, 1, 1] then (1, tiebreak)
  else (0, values)

/-- Running-maximum step of evaluate_hand: keep the new score when it beats
the best so far. -/
def betterOf (best s : Int × List Int) : Int × List Int :=
  if scoreLt best s then s else best

/-- evaluate_hand from poker.py: fewer than five cards scores high-card,
otherwise the running maximum of `_evaluate_five` over all 5-card
combinations, starting from the sentinel `(-1, [])`. -/
def evaluateHand (cards : List Card) : Int × List Int :=
  if cards.length < 5 then (0, sortDescInt (cards.map Card.value))
  else ((cards.sublistsLen 5).map evaluateFive).foldl betterOf (-1, [])

/-- Deck.reset from poker.py: the 52 cards `[Card(r, s) for s in SUITS for r
in RANKS]` (before the shuffle, which is modelled as an arbitrary
permutation). -/
def fullDeck : List Card :=
  ([0, 1, 2, 3] : List Int).flatMap fun s =>
    ([2, 3, 4, 5, 6, 7, 8, 9, 10, 11, 12, 13, 14] : List Int).map fun r =>
      Card.mk r s

/-- Deck.deal from poker.py: remove the first `n` cards. -/
def deal (n : Nat) (cards : List Card) : List Card × List Card :=
  (cards.take n, cards.drop n)

/-- Cards dealt by one PokerGame.play call from the shuffled deck `d`: two
hole cards each, then `k ≤ 5` community cards (3/1/1 across the streets,
fewer if the hand ends by fold). -/
def dealtCards (d : List Card) (k : Nat) : List Card :=
  let h := deal 2 d
  let h2 := deal 2 h.2
  h.1 ++ h2.1 ++ (deal k h2.2).1

/-! ## Betting round (PokerGame._run_betting_round, src/games/poker.py) -/

/-- Action carried by a validated poker decision reaching the betting round
(`raiseTo` carries the response's raise_amount; a missing raise_amount is
the caller passing `big_blind * 2`). -/
inductive PAction where
  | fold
  | call
  | raiseTo (amt : ℚ)
deriving DecidableEq, Repr

/-- Betting-round state: per-player stack, to-call and has-acted flag, plus
the pot (`stacks`, `to_call`, `has_acted`, `self.pot` in the source). -/
structure BetSt where
  sbStack : ℚ
  bbStack : ℚ
  pot : ℚ
  sbToCall : ℚ
  bbToCall : ℚ
  sbActed : Bool
  bbActed : Bool
deriving DecidableEq, Repr

/-- Mark one player as having acted (the `stacks[player] <= 0` branch). -/
def setActed (st : BetSt) (isSB : Bool) : BetSt :=
  if isSB then { st with sbActed := true } else { st with bbActed := true }

/-- Write-back of the raise branch: the raiser's new stack and the pot, the
opponent owing the raise amount, the raiser owing nothing and marked acted. -/
def writeRaise (st : BetSt) (isSB : Bool) (stk pot ramt : ℚ) : BetSt :=
  if isSB then
    { st with sbStack := stk, pot := pot, bbToCall := ramt, sbToCall := 0, sbActed := true }
  else
    { st with bbStack := stk, pot := pot, sbToCall := ramt, bbToCall := 0, bbActed := true }

/-- Write-back of the call/check branch. -/
def writeCall (st : BetSt) (isSB : Bool) (stk pot : ℚ) : BetSt :=
  if isSB then
    { st with sbStack := stk, pot := pot, sbToCall := 0, sbActed := true }
  else
    { st with bbStack := stk, pot := pot, bbToCall := 0, bbActed := true }

/-- One player's turn inside the inner `for player in actors` loop of
_run_betting_round. Returns the folder (if any), the new state, and the
next decision index (`decide` is the stream of validated decisions, indexed
in causal order). -/
def stepPlayer (bigBlind : ℚ) (decide : Nat → PAction) (isSB : Bool)
    (st : BetSt) (idx : Nat) : Option Bool × BetSt × Nat :=
  let acted := if isSB then st.sbActed else st.bbActed
  let tc := if isSB then st.sbToCall else st.bbToCall
  let stk := if isSB then st.sbStack else st.bbStack
  if acted ∧ tc ≤ 0 then (none, st, idx)
  else if stk ≤ 0 then (none, setActed st isSB, idx)
  else
    let cur := max tc 0
    match decide idx with
    | .fold => (some isSB, st, idx + 1)
    | .raiseTo amt =>
        let callAmt := min cur stk
        let stk1 := stk - callAmt
        let pot1 := st.pot + callAmt
        let ramt := min (max amt bigBlind) stk1
        (none, writeRaise st isSB (stk1 - ramt) (pot1 + ramt) ramt, idx + 1)
    | .call =>
        let callAmt := min cur stk
        (none, writeCall st isSB (stk - callAmt) (st.pot + callAmt), idx + 1)

/-- Street-completion test: both acted and neither owes anything. -/
def betDone (st : BetSt) : Bool :=
  st.sbActed && st.bbActed && decide (st.sbToCall ≤ 0) && decide (st.bbToCall ≤ 0)

/-- The `for _ in range(4)` loop: SB acts, then BB; stop early on a fold or
when `betDone` holds. The final `Bool` records whether the round ended via
the completion check (`true`) rather than by exhausting the cap or folding. -/
def runPasses (bigBlind : ℚ) (decide : Nat → PAction) :
    Nat → BetSt → Nat → Option Bool × BetSt × Bool
  | 0, st, _ => (none, st, false)
  | n + 1, st, idx =>
    match stepPlayer bigBlind decide true st idx with
    | (some p, st1, _) => (some p, st1, false)
    | (none, st1, idx1) =>
      match stepPlayer bigBlind decide false st1 idx1 with
      | (some p, st2, _) => (some p, st2, false)
      | (none, st2, idx2) =>
        if betDone st2 then (none, st2, true)
        else runPasses bigBlind decide n st2 idx2

/-- Nonnegativity of the money fields of a betting-round state. -/
def nonnegSt (st : BetSt) : Prop :=
  0 ≤ st.sbToCall ∧ 0 ≤ st.bbToCall ∧ 0 ≤ st.sbStack ∧ 0 ≤ st.bbStack

/-- State reached by the preflop round with blinds 1/2, stacks 99/98, pot 3
and both players calling (a concrete completed street). -/
def stAfterCalls : BetSt :=
  { sbStack := 98, bbStack := 98, pot := 4, sbToCall := 0, bbToCall := 0,
    sbActed := true, bbActed := true }

/-- PokerGame._run_betting_round: initial to-calls are the blind shortfall
for the SB on the preflop street and zero otherwise; at most four passes. -/
def runBettingRound (smallBlind bigBlind : ℚ) (preflop : Bool)
    (stackSB stackBB pot0 : ℚ) (decide : Nat → PAction) :
    Option Bool × BetSt × Bool :=
  runPasses bigBlind decide 4
    { sbStack := stackSB, bbStack := stackBB, pot := pot0,
      sbToCall := if preflop then bigBlind - smallBlind else 0,
      bbToCall := 0, sbActed := false, bbActed := false } 0

/-! ## Decision-provider validation (src/agent/strategy_engine.py) -/

/-- StrategyEngine.decide_poker_action response validation (lines 271-282):
a missing action defaults to "fold", an out-of-set action becomes "fold",
and a "fold" with `to_call <= 0` is rewritten to "call". -/
def validatePokerAction (raw : Option String) (toCall : ℚ) : String :=
  let a0 := raw.getD "fold"
  let a1 := if a0 == "fold" || a0 == "call" || a0 == "raise" then a0 else "fold"
  if a1 == "fold" && decide (toCall ≤ 0) then "call" else a1

/-- StrategyEngine.decide_auction_bid clamp (lines 353-355):
`min(bid, budget)` then `max(.., 0.001)`. -/
def engineBidClamp (bid budget : ℚ) : ℚ :=
  max (min bid budget) (1 / 1000)

/-! ## Auction round bid recording (AuctionGame.play, src/games/auction.py) -/

/-- The bid recorded for a player in AuctionGame.play (lines 118-121):
`max(0.0, min(bid_amount, budgets[player]))`. -/
def recordedBid (bidAmount budget : ℚ) : ℚ :=
  max 0 (min bidAmount budget)

/-! ## RPG combat (src/games/rpg_battle.py) -/

/-- Stats addressed by timed modifiers and `effective_stat`. -/
inductive Stat where
  | atk
  | defense
  | speed
deriving DecidableEq, Repr

/-- Timed stat modifier `{"stat", "amount", "turns"}`. -/
structure Buff where
  stat : Stat
  amount : Int
  turns : Int
deriving DecidableEq, Repr

/-- Damage-over-time entry `{"damage", "turns"}`. -/
structure Dot where
  damage : Int
  turns : Int
deriving DecidableEq, Repr

/-- Fighter dataclass from rpg_battle.py. -/
structure Fighter where
  address : String
  className : String
  name : String
  hp : Int
  maxHp : Int
  mp : Int
  maxMp : Int
  atk : Int
  defense : Int
  speed : Int
  buffs : List Buff
  dots : List Dot
  isDefending : Bool
deriving DecidableEq, Repr

/-- Base stat read (`getattr(self, stat)`). -/
def baseStat (f : Fighter) : Stat → Int
  | .atk => f.atk
  | .defense => f.defense
  | .speed => f.speed

/-- Fighter.effective_stat: base plus the summed amounts of active
modifiers on that stat, floored at 1. -/
def effectiveStat (f : Fighter) (s : Stat) : Int :=
  max 1 (baseStat f s + f.buffs.foldl (fun acc b => if b.stat = s then acc + b.amount else acc) 0)

/-- Fighter.tick_effects: total DoT damage of all entries, every entry's
counter decremented, expired entries removed, buffs likewise, the defending
flag cleared. -/
def tickEffects (f : Fighter) : Int × Fighter :=
  ((f.dots.map (fun d => d.damage)).sum,
   { f with
     dots := (f.dots.map (fun d => { d with turns := d.turns - 1 })).filter
       (fun d => 0 < d.turns),
     buffs := (f.buffs.map (fun b => { b with turns := b.turns - 1 })).filter
       (fun b => 0 < b.turns),
     isDefending := false })

/-- Effect type of an ability. -/
inductive AType where
  | physical
  | magic
  | defend
  | heal
  | cleanse
deriving DecidableEq, Repr

/-- One catalog ability: cost, effect type and optional attached templates
(fields absent in a catalog dict are the `.get(.., 0)` / absent defaults). -/
structure Ability where
  name : String
  damage : Int
  mpCost : Int
  atype : AType
  mpRestore : Int := 0
  healAmount : Int := 0
  debuff : Option Buff := none
  selfDebuff : Option Buff := none
  dot : Option Dot := none
deriving DecidableEq, Repr

/-- One archetype template from CLASSES. -/
structure ClassT where
  displayName : String
  hp : Int
  mp : Int
  atk : Int
  defense : Int
  speed : Int
  abilities : List Ability
deriving DecidableEq, Repr

/-- Warrior archetype from CLASSES. -/
def warriorT : ClassT :=
  { displayName := "Warrior", hp := 120, mp := 40, atk := 18, defense := 14, speed := 8,
    abilities := [
      { name := "slash", damage := 22, mpCost := 0, atype := .physical },
      { name := "shield_bash", damage := 15, mpCost := 8, atype := .physical,
        debuff := some { stat := .atk, amount := -3, turns := 2 } },
      { name := "berserk", damage := 35, mpCost := 15, atype := .physical,
        selfDebuff := some { stat := .defense, amount := -4, turns := 2 } },
      { name := "defend", damage := 0, mpCost := 0, atype := .defend, mpRestore := 5 },
      { name := "heal", damage := 0, mpCost := 12, atype := .heal, healAmount := 25 }] }

/-- Mage archetype from CLASSES. -/
def mageT : ClassT :=
  { displayName := "Mage", hp := 80, mp := 100, atk := 10, defense := 8, speed := 10,
    abilities := [
      { name := "fireball", damage := 30, mpCost := 15, atype := .magic },
      { name := "ice_shard", damage := 18, mpCost := 8, atype := .magic,
        debuff := some { stat := .speed, amount := -3, turns := 2 } },
      { name := "arcane_burst", damage := 45, mpCost := 30, atype := .magic },
      { name := "defend", damage := 0, mpCost := 0, atype := .defend, mpRestore := 8 },
      { name := "heal", damage := 0, mpCost := 10, atype := .heal, healAmount := 20 }] }

/-- Rogue archetype from CLASSES. -/
def rogueT : ClassT :=
  { displayName := "Rogue", hp := 90, mp := 60, atk := 16, defense := 10, speed := 16,
    abilities := [
      { name := "backstab", damage := 25, mpCost := 5, atype := .physical },
      { name := "poison_blade", damage := 12, mpCost := 10, atype := .physical,
        dot := some { damage := 8, turns := 3 } },
      { name := "shadow_strike", damage := 38, mpCost := 20, atype := .physical },
      { name := "defend", damage := 0, mpCost := 0, atype := .defend, mpRestore := 6 },
      { name := "heal", damage := 0, mpCost := 10, atype := .heal, healAmount := 18 }] }

/-- Healer archetype from CLASSES. -/
def healerT : ClassT :=
  { displayName := "Healer", hp := 100, mp := 90, atk := 10, defense := 12, speed := 9,
    abilities := [
      { name := "smite", damage := 16, mpCost := 5, atype := .magic },
      { name := "divine_heal", damage := 0, mpCost := 15, atype := .heal, healAmount := 40 },
      { name := "holy_fire", damage := 28, mpCost := 18, atype := .magic,
        dot := some { damage := 6, turns := 2 } },
      { name := "defend", damage := 0, mpCost := 0, atype := .defend, mpRestore := 8 },
      { name := "purify", damage := 0, mpCost := 10, atype := .cleanse, healAmount := 10 }] }

/-- CLASSES lookup by class name. -/
def classFor : String → Option ClassT
  | "warrior" => some warriorT
  | "mage" => some mageT
  | "rogue" => some rogueT
  | "healer" => some healerT
  | _ => none

/-- create_fighter: instantiate a Fighter from a class template (the source
indexes CLASSES directly and is only called with valid names; an unknown
name yields `none` here). -/
def createFighter (address className : String) : Option Fighter :=
  (classFor className).map fun c =>
    { address := address, className := className, name := c.displayName,
      hp := c.hp, maxHp := c.hp, mp := c.mp, maxMp := c.mp,
      atk := c.atk, defense := c.defense, speed := c.speed,
      buffs := [], dots := [], isDefending := false }

/-- Python `int(q)`: truncation toward zero. -/
def ratTrunc (q : ℚ) : Int :=
  if 0 ≤ q then ⌊q⌋ else -⌊-q⌋

/-- MP spend at the top of _resolve_ability: `max(0, mp - cost)`. -/
def spendMP (f : Fighter) (cost : Int) : Fighter :=
  { f with mp := max 0 (f.mp - cost) }

/-- Defend branch MP restore: `min(max_mp, mp + restore)`. -/
def restoreMP (f : Fighter) (amt : Int) : Fighter :=
  { f with mp := min f.maxMp (f.mp + amt) }

/-- Heal application: `min(max_hp, hp + heal)`. -/
def healHP (f : Fighter) (amt : Int) : Fighter :=
  { f with hp := min f.maxHp (f.hp + amt) }

/-- Damage (or DoT damage) application: `max(0, hp - damage)`. -/
def applyDamage (f : Fighter) (dmg : Int) : Fighter :=
  { f with hp := max 0 (f.hp - dmg) }

/-- Cleanse branch: drop all DoTs, keep only positive buffs. -/
def cleanseEffects (f : Fighter) : Fighter :=
  { f with dots := [], buffs := f.buffs.filter (fun b => 0 < b.amount) }

/-- Base damage of a physical/magic ability: the type-specific formula of
_resolve_ability with its `max(1, int(..))` floor (physical scales the
attack by /15 and discounts 30% of defense/20; magic takes 90% of base
plus 20% of attack minus 15% of defense). -/
def baseAttackDamage (attacker defender : Fighter) (ab : Ability) : Int :=
  if ab.atype = .physical then
    max 1 (ratTrunc ((ab.damage : ℚ) * ((effectiveStat attacker .atk : ℚ) / 15)
      - (ab.damage : ℚ) * ((effectiveStat defender .defense : ℚ) / 20) * (3 / 10)))
  else
    max 1 (ratTrunc ((ab.damage : ℚ) * (9 / 10)
      + (effectiveStat attacker .atk : ℚ) * (1 / 5)
      - (effectiveStat defender .defense : ℚ) * (3 / 20)))

/-- Damage before the defending halving: base damage, then the 1.4x
backstab bonus when the attacker's effective speed is strictly higher. -/
def attackDamage (attacker defender : Fighter) (ab : Ability) : Int :=
  if ab.name == "backstab" ∧
      effectiveStat attacker .speed > effectiveStat defender .speed
  then ratTrunc ((baseAttackDamage attacker defender ab : ℚ) * (14 / 10))
  else baseAttackDamage attacker defender ab

/-- RPGBattleGame._resolve_ability: spend MP, then dispatch on effect type;
damage abilities halve (floored at 1) against a defending target and attach
the optional debuff / self-debuff / DoT templates by appending fresh
entries. Returns (attacker, defender). -/
def resolveAbility (attacker defender : Fighter) (abilityName : String) :
    Fighter × Fighter :=
  match classFor attacker.className with
  | none => (attacker, defender)
  | some cls =>
    match cls.abilities.find? (fun ab => ab.name == abilityName) with
    | none => (attacker, defender)
    | some ab =>
      let a1 := spendMP attacker ab.mpCost
      match ab.atype with
      | .defend => (restoreMP { a1 with isDefending := true } ab.mpRestore, defender)
      | .heal => (healHP a1 ab.healAmount, defender)
      | .cleanse => (healHP (cleanseEffects a1) ab.healAmount, defender)
      | .physical | .magic =>
        let dmg1 := attackDamage a1 defender ab
        let dmg2 := if defender.isDefending then max 1 (Int.fdiv dmg1 2) else dmg1
        let d1 := applyDamage defender dmg2
        let d2 := match ab.debuff with
          | none => d1
          | some bf => { d1 with buffs := d1.buffs ++ [bf] }
        let a2 := match ab.selfDebuff with
          | none => a1
          | some bf => { a1 with buffs := a1.buffs ++ [bf] }
        let d3 := match ab.dot with
          | none => d2
          | some dt => { d2 with dots := d2.dots ++ [dt] }
        (a2, d3)

/-- Fighter state after `k` start-of-action ticks. -/
def afterTicks : Fighter → Nat → Fighter
  | f, 0 => f
  | f, k + 1 => afterTicks (tickEffects f).2 k

/-- DoT damage dealt by the (k+1)-th tick. -/
def tickDamageAt (f : Fighter) (k : Nat) : Int :=
  (tickEffects (afterTicks f k)).1

/-- One tick of a DoT list alone: decrement every counter, drop expired. -/
def dotsTick (l : List Dot) : List Dot :=
  (l.map (fun d => { d with turns := d.turns - 1 })).filter (fun d => 0 < d.turns)

/-- Iterated DoT-list ticking. -/
def dotsIter : List Dot → Nat → List Dot
  | l, 0 => l
  | l, k + 1 => dotsIter (dotsTick l) k

/-- HP/MP invariant of the combat spec: both clamped into [0, max]. -/
def hpmpInvar (f : Fighter) : Prop :=
  0 ≤ f.hp ∧ f.hp ≤ f.maxHp ∧ 0 ≤ f.mp ∧ f.mp ≤ f.maxMp

/-- All DoT entries carried by a fighter deal nonnegative damage (true of
every entry the catalog can attach). -/
def dotsNonneg (f : Fighter) : Prop :=
  ∀ d ∈ f.dots, 0 ≤ d.damage

/-- Sample mid-fight warrior used as a concrete attacker. -/
def sampleAttacker : Fighter :=
  { address := "A", className := "warrior", name := "Warrior", hp := 100,
    maxHp := 120, mp := 30, maxMp := 40, atk := 18, defense := 14, speed := 8,
    buffs := [], dots := [{ damage := 8, turns := 2 }], isDefending := false }

/-- Sample mid-fight mage used as a concrete defender. -/
def sampleDefender : Fighter :=
  { address := "B", className := "mage", name := "Mage", hp := 55,
    maxHp := 80, mp := 70, maxMp := 100, atk := 10, defense := 8, speed := 10,
    buffs := [{ stat := .speed, amount := -3, turns := 2 }], dots := [],
    isDefending := true }

/-- RPGBattleGame._emit: forward the event to the callback when one is
installed. The callback may fail (`Except`); the source has no handler
around the call, so a failure propagates to the caller of _emit. -/
def emitCB (cb : Option (String → Except Unit Unit)) (ev : String) :
    Except Unit Unit :=
  match cb with
  | none => Except.ok ()
  | some f => f ev

/-- Opening of RPGBattleGame.play: create both fighters, then emit the
"rpg_init" event. Runs in `Except` because the emission can fail; play
only proceeds past this point when the emission succeeds. -/
def playStart (cb : Option (String → Except Unit Unit))
    (addrA addrB classA classB : String) : Except Unit (Fighter × Fighter) :=
  match createFighter addrA classA, createFighter addrB classB with
  | some fa, some fb =>
    match emitCB cb "rpg_init" with
    | Except.ok _ => Except.ok (fa, fb)
    | Except.error e => Except.error e
  | _, _ => Except.error ()

/-! ## Helper lemmas -/

theorem buffSum_foldl (s : Stat) (l : List Buff) (acc : Int) :
    l.foldl (fun acc b => if b.stat = s then acc + b.amount else acc) acc =
      acc + ((l.filter (fun b => b.stat = s)).map (fun b => b.amount)).sum := by
  induction l generalizing acc with
  | nil => simp
  | cons b bs ih =>
    by_cases hb : b.stat = s <;>
      simp [List.foldl_cons, List.filter_cons, hb, ih, add_assoc]

theorem dotsTick_append (l1 l2 : List Dot) :
    dotsTick (l1 ++ l2) = dotsTick l1 ++ dotsTick l2 := by
  simp [dotsTick]

theorem dotsTick_single (d t : Int) :
    dotsTick [{ damage := d, turns := t }] =
      if 1 < t then [{ damage := d, turns := t - 1 }] else [] := by
  by_cases h : (1 : Int) < t
  · rw [if_pos h]
    simp [dotsTick, show (0 : Int) < t - 1 by omega]
  · rw [if_neg h]
    simp [dotsTick, show ¬ (0 : Int) < t - 1 by omega]

theorem dotsIter_tick_comm (k : Nat) (l : List Dot) :
    dotsIter (dotsTick l) k = dotsTick (dotsIter l k) := by
  induction k generalizing l with
  | zero => rfl
  | succ k ih => exact ih (dotsTick l)

theorem dotsIter_succ (l : List Dot) (k : Nat) :
    dotsIter l (k + 1) = dotsTick (dotsIter l k) :=
  dotsIter_tick_comm k l

theorem afterTicks_dots (k : Nat) (f : Fighter) :
    (afterTicks f k).dots = dotsIter f.dots k := by
  induction k generalizing f with
  | zero => rfl
  | succ k ih => exact ih (tickEffects f).2

theorem tickEffects_fst (f : Fighter) :
    (tickEffects f).1 = (f.dots.map (fun d => d.damage)).sum := rfl

theorem dotsIter_pair (d1 d2 : Int) (t1 t2 : Nat) (h1 : 0 < t1) (h12 : t1 < t2)
    (k : Nat) :
    dotsIter [{ damage := d1, turns := (t1 : Int) },
              { damage := d2, turns := (t2 : Int) }] k =
      (if k < t1 then [{ damage := d1, turns := (t1 : Int) - k }] else []) ++
      (if k < t2 then [{ damage := d2, turns := (t2 : Int) - k }] else []) := by
  induction k with
  | zero =>
    rw [if_pos h1, if_pos (h1.trans h12)]
    simp [dotsIter]
  | succ k ih =>
    rw [dotsIter_succ, ih, dotsTick_append]
    by_cases ha : k < t1 <;> by_cases hb : k + 1 < t1 <;>
      by_cases hc : k < t2 <;> by_cases hd : k + 1 < t2 <;>
        simp [ha, hb, hc, hd, dotsTick, Dot.mk.injEq,
          show ((0 : Int) < (t1 : Int) - k - 1) ↔ k + 1 < t1 by omega,
          show ((0 : Int) < (t2 : Int) - k - 1) ↔ k + 1 < t2 by omega] <;>
        omega

theorem pyListLt_irrefl (l : List Int) : pyListLt l l = false := by
  induction l with
  | nil => rfl
  | cons a as ih => simp [pyListLt, ih]

theorem pyListLt_trans {a b c : List Int} (h1 : pyListLt a b = true)
    (h2 : pyListLt b c = true) : pyListLt a c = true := by
  induction a generalizing b c with
  | nil =>
    cases b with
    | nil => exact absurd h1 (by simp [pyListLt])
    | cons y ys =>
      cases c with
      | nil => exact absurd h2 (by simp [pyListLt])
      | cons z zs => rfl
  | cons x xs ih =>
    cases b with
    | nil => exact absurd h1 (by simp [pyListLt])
    | cons y ys =>
      cases c with
      | nil => exact absurd h2 (by simp [pyListLt])
      | cons z zs =>
        simp only [pyListLt, Bool.or_eq_true, Bool.and_eq_true,
          decide_eq_true_eq, beq_iff_eq] at h1 h2 ⊢
        rcases h1 with h1 | ⟨he1, hp1⟩ <;> rcases h2 with h2 | ⟨he2, hp2⟩
        · exact Or.inl (h1.trans h2)
        · exact Or.inl (he2 ▸ h1)
        · exact Or.inl (he1 ▸ h2)
        · exact Or.inr ⟨he1.trans he2, ih hp1 hp2⟩

theorem pyListLt_total (a b : List Int) :
    pyListLt a b = true ∨ pyListLt b a = true ∨ a = b := by
  induction a generalizing b with
  | nil =>
    cases b with
    | nil => exact Or.inr (Or.inr rfl)
    | cons y ys => exact Or.inl rfl
  | cons x xs ih =>
    cases b with
    | nil => exact Or.inr (Or.inl rfl)
    | cons y ys =>
      rcases lt_trichotomy x y with h | h | h
      · exact Or.inl (by simp [pyListLt, h])
      · subst h
        rcases ih ys with h1 | h1 | h1
        · exact Or.inl (by simp [pyListLt, h1])
        · exact Or.inr (Or.inl (by simp [pyListLt, h1]))
        · exact Or.inr (Or.inr (by rw [h1]))
      · exact Or.inr (Or.inl (by simp [pyListLt, h]))

theorem scoreLt_irrefl (s : Int × List Int) : scoreLt s s = false := by
  simp [scoreLt, pyListLt_irrefl]

theorem scoreLt_trans {a b c : Int × List Int} (h1 : scoreLt a b = true)
    (h2 : scoreLt b c = true) : scoreLt a c = true := by
  simp only [scoreLt, Bool.or_eq_true, Bool.and_eq_true, decide_eq_true_eq,
    beq_iff_eq] at h1 h2 ⊢
  rcases h1 with h1 | ⟨he1, hp1⟩ <;> rcases h2 with h2 | ⟨he2, hp2⟩
  · exact Or.inl (h1.trans h2)
  · exact Or.inl (he2 ▸ h1)
  · exact Or.inl (he1 ▸ h2)
  · exact Or.inr ⟨he1.trans he2, pyListLt_trans hp1 hp2⟩

theorem scoreLt_total (a b : Int × List Int) :
    scoreLt a b = true ∨ scoreLt b a = true ∨ a = b := by
  rcases lt_trichotomy a.1 b.1 with h | h | h
  · exact Or.inl (by simp [scoreLt, h])
  · rcases pyListLt_total a.2 b.2 with h2 | h2 | h2
    · exact Or.inl (by simp [scoreLt, h, h2])
    · exact Or.inr (Or.inl (by simp [scoreLt, h.symm, h2]))
    · exact Or.inr (Or.inr (Prod.ext h h2))
  · exact Or.inr (Or.inl (by simp [scoreLt, h]))

theorem scoreLt_notLt_trans {x y z : Int × List Int}
    (h1 : scoreLt x y = false) (h2 : scoreLt y z = false) :
    scoreLt x z = false := by
  by_contra hc
  have hxz : scoreLt x z = true := by
    cases hxz2 : scoreLt x z with
    | true => rfl
    | false => exact absurd hxz2 hc
  rcases scoreLt_total x y with ht | ht | ht
  · rw [ht] at h1; cases h1
  · have := scoreLt_trans ht hxz
    rw [this] at h2; cases h2
  · rw [ht] at hxz
    rw [hxz] at h2; cases h2

theorem betterOf_ge_right (i s : Int × List Int) :
    scoreLt (betterOf i s) s = false := by
  unfold betterOf
  by_cases hc : scoreLt i s = true
  · simp [hc, scoreLt_irrefl]
  · simp [hc]

theorem betterOf_ge_left (i s : Int × List Int) :
    scoreLt (betterOf i s) i = false := by
  unfold betterOf
  by_cases hc : scoreLt i s = true
  · rw [if_pos hc]
    by_contra hcon
    have hsi : scoreLt s i = true := by
      cases hx : scoreLt s i with
      | true => rfl
      | false => exact absurd hx hcon
    have := scoreLt_trans hc hsi
    rw [scoreLt_irrefl] at this
    cases this
  · rw [if_neg hc]
    exact scoreLt_irrefl i

theorem foldl_betterOf_mem (l : List (Int × List Int)) (i : Int × List Int) :
    l.foldl betterOf i = i ∨ l.foldl betterOf i ∈ l := by
  induction l generalizing i with
  | nil => exact Or.inl rfl
  | cons s rest ih =>
    rw [List.foldl_cons]
    rcases ih (betterOf i s) with h | h
    · rw [h]
      unfold betterOf
      by_cases hc : scoreLt i s = true
      · rw [if_pos hc]
        exact Or.inr (List.mem_cons_self s rest)
      · rw [if_neg hc]
        exact Or.inl rfl
    · exact Or.inr (List.mem_cons_of_mem s h)

theorem foldl_betterOf_ge (l : List (Int × List Int)) (i : Int × List Int) :
    scoreLt (l.foldl betterOf i) i = false := by
  induction l generalizing i with
  | nil => exact scoreLt_irrefl i
  | cons s rest ih =>
    rw [List.foldl_cons]
    exact scoreLt_notLt_trans (ih (betterOf i s)) (betterOf_ge_left i s)

theorem foldl_betterOf_ub (l : List (Int × List Int)) (i s : Int × List Int)
    (hs : s ∈ l) : scoreLt (l.foldl betterOf i) s = false := by
  induction l generalizing i with
  | nil => cases hs
  | cons t rest ih =>
    rw [List.foldl_cons]
    rcases List.mem_cons.mp hs with h | h
    · subst h
      exact scoreLt_notLt_trans (foldl_betterOf_ge rest (betterOf i s))
        (betterOf_ge_right i s)
    · exact ih (betterOf i t) h

theorem stepPlayer_none_sb (bigBlind : ℚ) (dec : Nat → PAction) (st : BetSt)
    (idx : Nat) (st2 : BetSt) (idx2 : Nat)
    (h : stepPlayer bigBlind dec true st idx = (none, st2, idx2)) :
    st2.sbActed = true := by
  simp only [stepPlayer, if_true, ite_true] at h
  split_ifs at h with hskip hstk
  · simp only [Prod.mk.injEq, true_and] at h
    rw [← h.1]
    exact hskip.1
  · simp only [Prod.mk.injEq, true_and] at h
    rw [← h.1]
    simp [setActed]
  · cases hdec : dec idx
    · rw [hdec] at h; simp at h
    · rw [hdec] at h
      simp only [Prod.mk.injEq, true_and] at h
      rw [← h.1]
      simp [writeCall]
    · rw [hdec] at h
      simp only [Prod.mk.injEq, true_and] at h
      rw [← h.1]
      simp [writeRaise]

theorem stepPlayer_none_bb (bigBlind : ℚ) (dec : Nat → PAction) (st : BetSt)
    (idx : Nat) (st2 : BetSt) (idx2 : Nat)
    (h : stepPlayer bigBlind dec false st idx = (none, st2, idx2)) :
    st2.bbActed = true := by
  simp only [stepPlayer, Bool.false_eq_true, if_false, ite_false] at h
  split_ifs at h with hskip hstk
  · simp only [Prod.mk.injEq, true_and] at h
    rw [← h.1]
    exact hskip.1
  · simp only [Prod.mk.injEq, true_and] at h
    rw [← h.1]
    simp [setActed]
  · cases hdec : dec idx
    · rw [hdec] at h; simp at h
    · rw [hdec] at h
      simp only [Prod.mk.injEq, true_and] at h
      rw [← h.1]
      simp [writeCall]
    · rw [hdec] at h
      simp only [Prod.mk.injEq, true_and] at h
      rw [← h.1]
      simp [writeRaise]

theorem stepPlayer_false_pres_sb (bigBlind : ℚ) (dec : Nat → PAction)
    (st : BetSt) (idx : Nat) (r : Option Bool) (st2 : BetSt) (idx2 : Nat)
    (h : stepPlayer bigBlind dec false st idx = (r, st2, idx2)) :
    st2.sbActed = st.sbActed := by
  simp only [stepPlayer, Bool.false_eq_true, if_false, ite_false] at h
  split_ifs at h with hskip hstk
  · simp only [Prod.mk.injEq] at h
    rw [← h.2.1]
  · simp only [Prod.mk.injEq] at h
    rw [← h.2.1]
    simp [setActed]
  · cases hdec : dec idx <;> rw [hdec] at h <;>
      simp only [Prod.mk.injEq] at h <;> rw [← h.2.1]
    · simp [writeCall]
    · simp [writeRaise]

theorem stepPlayer_nonneg (bigBlind : ℚ) (dec : Nat → PAction) (isSB : Bool)
    (st : BetSt) (idx : Nat) (r : Option Bool) (st2 : BetSt) (idx2 : Nat)
    (hbb : 0 ≤ bigBlind) (hst : nonnegSt st)
    (h : stepPlayer bigBlind dec isSB st idx = (r, st2, idx2)) :
    nonnegSt st2 := by
  obtain ⟨ht1, ht2, ht3, ht4⟩ := hst
  cases isSB
  · simp only [stepPlayer, Bool.false_eq_true, if_false, ite_false] at h
    split_ifs at h with hskip hstk
    · simp only [Prod.mk.injEq] at h
      rw [← h.2.1]
      exact ⟨ht1, ht2, ht3, ht4⟩
    · simp only [Prod.mk.injEq] at h
      rw [← h.2.1]
      exact ⟨ht1, ht2, ht3, ht4⟩
    · cases hdec : dec idx <;> rw [hdec] at h <;>
        simp only [Prod.mk.injEq] at h <;> rw [← h.2.1]
      · exact ⟨ht1, ht2, ht3, ht4⟩
      · have hm := min_le_right (max st.bbToCall 0) st.bbStack
        refine ⟨ht1, le_refl 0, ht3, ?_⟩
        simp only [writeCall, Bool.false_eq_true, if_false, ite_false]
        linarith
      · rename_i amt
        have hm := min_le_right (max st.bbToCall 0) st.bbStack
        have hstk1 : (0:ℚ) ≤ st.bbStack - min (max st.bbToCall 0) st.bbStack := by
          linarith
        have hramt0 : (0:ℚ) ≤ min (max amt bigBlind)
            (st.bbStack - min (max st.bbToCall 0) st.bbStack) :=
          le_min (hbb.trans (le_max_right amt bigBlind)) hstk1
        have hramt1 := min_le_right (max amt bigBlind)
          (st.bbStack - min (max st.bbToCall 0) st.bbStack)
        refine ⟨?_, ?_, ?_, ?_⟩ <;>
          simp only [writeRaise, Bool.false_eq_true, if_false, ite_false]
        · exact hramt0
        · exact le_refl 0
        · exact ht3
        · linarith
  · simp only [stepPlayer, if_true, ite_true] at h
    split_ifs at h with hskip hstk
    · simp only [Prod.mk.injEq] at h
      rw [← h.2.1]
      exact ⟨ht1, ht2, ht3, ht4⟩
    · simp only [Prod.mk.injEq] at h
      rw [← h.2.1]
      exact ⟨ht1, ht2, ht3, ht4⟩
    · cases hdec : dec idx <;> rw [hdec] at h <;>
        simp only [Prod.mk.injEq] at h <;> rw [← h.2.1]
      · exact ⟨ht1, ht2, ht3, ht4⟩
      · have hm := min_le_right (max st.sbToCall 0) st.sbStack
        refine ⟨le_refl 0, ht2, ?_, ht4⟩
        simp only [writeCall, if_true, ite_true]
        linarith
      · rename_i amt
        have hm := min_le_right (max st.sbToCall 0) st.sbStack
        have hstk1 : (0:ℚ) ≤ st.sbStack - min (max st.sbToCall 0) st.sbStack := by
          linarith
        have hramt0 : (0:ℚ) ≤ min (max amt bigBlind)
            (st.sbStack - min (max st.sbToCall 0) st.sbStack) :=
          le_min (hbb.trans (le_max_right amt bigBlind)) hstk1
        have hramt1 := min_le_right (max amt bigBlind)
          (st.sbStack - min (max st.sbToCall 0) st.sbStack)
        refine ⟨?_, ?_, ?_, ?_⟩ <;>
          simp only [writeRaise, if_true, ite_true]
        · exact le_refl 0
        · exact hramt0
        · linarith
        · exact ht4

theorem runPasses_none_flags (bigBlind : ℚ) (dec : Nat → PAction) :
    ∀ (n : Nat) (st : BetSt) (idx : Nat) (out : BetSt) (brk : Bool),
      runPasses bigBlind dec (n + 1) st idx = (none, out, brk) →
      out.sbActed = true ∧ out.bbActed = true := by
  intro n
  induction n with
  | zero =>
    intro st idx out brk h
    simp only [runPasses] at h
    rcases h1 : stepPlayer bigBlind dec true st idx with ⟨r1, st1, idx1⟩
    rw [h1] at h
    cases r1 with
    | some p => simp at h
    | none =>
      dsimp only at h
      rcases h2 : stepPlayer bigBlind dec false st1 idx1 with ⟨r2, st2, idx2⟩
      rw [h2] at h
      cases r2 with
      | some p => simp at h
      | none =>
        dsimp only at h
        have hsb1 := stepPlayer_none_sb _ _ _ _ _ _ h1
        have hsb2 := stepPlayer_false_pres_sb _ _ _ _ _ _ _ h2
        have hbb2 := stepPlayer_none_bb _ _ _ _ _ _ h2
        by_cases hdone : betDone st2 = true
        · rw [if_pos hdone] at h
          simp only [Prod.mk.injEq, true_and] at h
          rw [← h.1]
          exact ⟨hsb2.trans hsb1, hbb2⟩
        · rw [if_neg hdone] at h
          simp only [runPasses, Prod.mk.injEq, true_and] at h
          rw [← h.1]
          exact ⟨hsb2.trans hsb1, hbb2⟩
  | succ n ih =>
    intro st idx out brk h
    simp only [runPasses] at h
    rcases h1 : stepPlayer bigBlind dec true st idx with ⟨r1, st1, idx1⟩
    rw [h1] at h
    cases r1 with
    | some p => simp at h
    | none =>
      dsimp only at h
      rcases h2 : stepPlayer bigBlind dec false st1 idx1 with ⟨r2, st2, idx2⟩
      rw [h2] at h
      cases r2 with
      | some p => simp at h
      | none =>
        dsimp only at h
        have hsb1 := stepPlayer_none_sb _ _ _ _ _ _ h1
        have hsb2 := stepPlayer_false_pres_sb _ _ _ _ _ _ _ h2
        have hbb2 := stepPlayer_none_bb _ _ _ _ _ _ h2
        by_cases hdone : betDone st2 = true
        · rw [if_pos hdone] at h
          simp only [Prod.mk.injEq, true_and] at h
          rw [← h.1]
          exact ⟨hsb2.trans hsb1, hbb2⟩
        · rw [if_neg hdone] at h
          exact ih st2 idx2 out brk h

theorem runPasses_brk_done (bigBlind : ℚ) (dec : Nat → PAction) :
    ∀ (n : Nat) (st : BetSt) (idx : Nat) (out : BetSt),
      runPasses bigBlind dec n st idx = (none, out, true) →
      betDone out = true := by
  intro n
  induction n with
  | zero =>
    intro st idx out h
    simp only [runPasses] at h
    simp at h
  | succ n ih =>
    intro st idx out h
    simp only [runPasses] at h
    rcases h1 : stepPlayer bigBlind dec true st idx with ⟨r1, st1, idx1⟩
    rw [h1] at h
    cases r1 with
    | some p => simp at h
    | none =>
      dsimp only at h
      rcases h2 : stepPlayer bigBlind dec false st1 idx1 with ⟨r2, st2, idx2⟩
      rw [h2] at h
      cases r2 with
      | some p => simp at h
      | none =>
        dsimp only at h
        by_cases hdone : betDone st2 = true
        · rw [if_pos hdone] at h
          simp only [Prod.mk.injEq, true_and] at h
          rw [← h.1]
          exact hdone
        · rw [if_neg hdone] at h
          exact ih st2 idx2 out h

theorem runPasses_nonneg (bigBlind : ℚ) (dec : Nat → PAction)
    (hbb : 0 ≤ bigBlind) :
    ∀ (n : Nat) (st : BetSt) (idx : Nat) (r : Option Bool) (out : BetSt)
      (brk : Bool),
      runPasses bigBlind dec n st idx = (r, out, brk) → nonnegSt st →
      nonnegSt out := by
  intro n
  induction n with
  | zero =>
    intro st idx r out brk h hst
    simp only [runPasses, Prod.mk.injEq] at h
    rw [← h.2.1]
    exact hst
  | succ n ih =>
    intro st idx r out brk h hst
    simp only [runPasses] at h
    rcases h1 : stepPlayer bigBlind dec true st idx with ⟨r1, st1, idx1⟩
    rw [h1] at h
    have hn1 := stepPlayer_nonneg _ _ _ _ _ _ _ _ hbb hst h1
    cases r1 with
    | some p =>
      simp only [Prod.mk.injEq] at h
      rw [← h.2.1]
      exact hn1
    | none =>
      dsimp only at h
      rcases h2 : stepPlayer bigBlind dec false st1 idx1 with ⟨r2, st2, idx2⟩
      rw [h2] at h
      have hn2 := stepPlayer_nonneg _ _ _ _ _ _ _ _ hbb hn1 h2
      cases r2 with
      | some p =>
        simp only [Prod.mk.injEq] at h
        rw [← h.2.1]
        exact hn2
      | none =>
        dsimp only at h
        by_cases hdone : betDone st2 = true
        · rw [if_pos hdone] at h
          simp only [Prod.mk.injEq] at h
          rw [← h.2.1]
          exact hn2
        · rw [if_neg hdone] at h
          exact ih st2 idx2 r out brk h hn2

theorem evaluateFive_rank_nonneg (cs : List Card) : 0 ≤ (evaluateFive cs).1 := by
  unfold evaluateFive
  dsimp only
  split_ifs <;> norm_num

theorem hpmp_spendMP (f : Fighter) (c : Int) (hf : hpmpInvar f) (hc : 0 ≤ c) :
    hpmpInvar (spendMP f c) := by
  simp only [hpmpInvar, spendMP] at *
  omega

theorem hpmp_restoreMP (f : Fighter) (r : Int) (hf : hpmpInvar f) (hr : 0 ≤ r) :
    hpmpInvar (restoreMP f r) := by
  simp only [hpmpInvar, restoreMP] at *
  omega

theorem hpmp_healHP (f : Fighter) (h : Int) (hf : hpmpInvar f) (hh : 0 ≤ h) :
    hpmpInvar (healHP f h) := by
  simp only [hpmpInvar, healHP] at *
  omega

theorem hpmp_applyDamage (f : Fighter) (dmg : Int) (hf : hpmpInvar f)
    (hdmg : 0 ≤ dmg) : hpmpInvar (applyDamage f dmg) := by
  simp only [hpmpInvar, applyDamage] at *
  omega

theorem hpmp_cleanseEffects (f : Fighter) (hf : hpmpInvar f) :
    hpmpInvar (cleanseEffects f) := hf

theorem classFor_ability_bounds (s : String) (c : ClassT)
    (h : classFor s = some c) :
    ∀ ab ∈ c.abilities, 0 ≤ ab.mpCost ∧ 0 ≤ ab.mpRestore ∧ 0 ≤ ab.healAmount := by
  unfold classFor at h
  split at h <;> [skip; skip; skip; skip; exact absurd h (by simp)] <;>
    cases h <;> decide

theorem ratTrunc_ge_one (q : ℚ) (h : 1 ≤ q) : 1 ≤ ratTrunc q := by
  unfold ratTrunc
  rw [if_pos (le_trans zero_le_one h)]
  exact Int.le_floor.mpr (by exact_mod_cast h)

theorem baseAttackDamage_ge_one (a d : Fighter) (ab : Ability) :
    1 ≤ baseAttackDamage a d ab := by
  unfold baseAttackDamage
  split <;> exact le_max_left 1 _

theorem attackDamage_ge_one (a d : Fighter) (ab : Ability) :
    1 ≤ attackDamage a d ab := by
  unfold attackDamage
  split
  · apply ratTrunc_ge_one
    have h1 : (1 : ℚ) ≤ ((baseAttackDamage a d ab : Int) : ℚ) :=
      Int.cast_le.mpr (baseAttackDamage_ge_one a d ab)
    nlinarith
  · exact baseAttackDamage_ge_one a d ab

theorem hpmp_attack_branch (a1 d : Fighter) (ab : Ability)
    (ha1 : hpmpInvar a1) (hd : hpmpInvar d) :
    hpmpInvar
      (let dmg1 := attackDamage a1 d ab
       let dmg2 := if d.isDefending then max 1 (Int.fdiv dmg1 2) else dmg1
       let d1 := applyDamage d dmg2
       let d2 := match ab.debuff with
         | none => d1
         | some bf => { d1 with buffs := d1.buffs ++ [bf] }
       let a2 := match ab.selfDebuff with
         | none => a1
         | some bf => { a1 with buffs := a1.buffs ++ [bf] }
       let d3 := match ab.dot with
         | none => d2
         | some dt => { d2 with dots := d2.dots ++ [dt] }
       ((a2, d3) : Fighter × Fighter)).1 ∧
    hpmpInvar
      (let dmg1 := attackDamage a1 d ab
       let dmg2 := if d.isDefending then max 1 (Int.fdiv dmg1 2) else dmg1
       let d1 := applyDamage d dmg2
       let d2 := match ab.debuff with
         | none => d1
         | some bf => { d1 with buffs := d1.buffs ++ [bf] }
       let a2 := match ab.selfDebuff with
         | none => a1
         | some bf => { a1 with buffs := a1.buffs ++ [bf] }
       let d3 := match ab.dot with
         | none => d2
         | some dt => { d2 with dots := d2.dots ++ [dt] }
       ((a2, d3) : Fighter × Fighter)).2 := by
  have h2 : (0 : Int) ≤
      (if d.isDefending then max 1 (Int.fdiv (attackDamage a1 d ab) 2)
        else attackDamage a1 d ab) := by
    split
    · omega
    · exact le_trans zero_le_one (attackDamage_ge_one _ _ _)
  have hdmg := hpmp_applyDamage d _ hd h2
  constructor
  · cases ab.selfDebuff <;> exact ha1
  · cases ab.debuff <;> cases ab.dot <;> exact hdmg

theorem hpmp_resolveAbility (a d : Fighter) (n : String)
    (ha : hpmpInvar a) (hd : hpmpInvar d) :
    hpmpInvar (resolveAbility a d n).1 ∧ hpmpInvar (resolveAbility a d n).2 := by
  rcases hcf : classFor a.className with _ | cls
  · simp only [resolveAbility, hcf]
    exact ⟨ha, hd⟩
  · rcases hfind : cls.abilities.find? (fun ab => ab.name == n) with _ | ab
    · simp only [resolveAbility, hcf, hfind]
      exact ⟨ha, hd⟩
    · obtain ⟨hcost, hrest, hheal⟩ :=
        classFor_ability_bounds _ _ hcf ab (List.mem_of_find?_eq_some hfind)
      have ha1 : hpmpInvar (spendMP a ab.mpCost) := hpmp_spendMP a ab.mpCost ha hcost
      rcases habt : ab.atype
      · simp only [resolveAbility, hcf, hfind, habt]
        exact hpmp_attack_branch _ _ _ ha1 hd
      · simp only [resolveAbility, hcf, hfind, habt]
        exact hpmp_attack_branch _ _ _ ha1 hd
      · simp only [resolveAbility, hcf, hfind, habt]
        exact ⟨hpmp_restoreMP _ _ ha1 hrest, hd⟩
      · simp only [resolveAbility, hcf, hfind, habt]
        exact ⟨hpmp_healHP _ _ ha1 hheal, hd⟩
      · simp only [resolveAbility, hcf, hfind, habt]
        exact ⟨hpmp_healHP _ _ (hpmp_cleanseEffects _ ha1) hheal, hd⟩

/-! ## Claim theorems -/

/-- C10: Fighter.effective_stat returns `max(1, base + sum of active
modifier amounts on that stat)` and is therefore never below 1, however
negative the accumulated modifiers are. -/
theorem effective_stat_floor_one (f : Fighter) (s : Stat) :
    effectiveStat f s =
      max 1 (baseStat f s +
        ((f.buffs.filter (fun b => b.stat = s)).map (fun b => b.amount)).sum) ∧
    1 ≤ effectiveStat f s := by
  constructor
  · unfold effectiveStat
    rw [buffSum_foldl]
    ring_nf
  · exact le_max_left _ _

/-- C2 (code bug): the wheel `{14,5,4,3,2}` is classified as a straight,
but its tiebreak `[14,5,4,3,2]` compares lexicographically above
`[9,8,7,6,5]`, so the code scores the wheel strictly HIGHER than the
nine-high straight, not lower as the spec requires. -/
theorem wheel_straight_ranks_above :
    evaluateFive [Card.mk 14 0, Card.mk 5 1, Card.mk 4 2, Card.mk 3 3, Card.mk 2 0] =
      (4, [14, 5, 4, 3, 2]) ∧
    evaluateFive [Card.mk 9 0, Card.mk 8 1, Card.mk 7 2, Card.mk 6 3, Card.mk 5 0] =
      (4, [9, 8, 7, 6, 5]) ∧
    scoreLt (evaluateFive [Card.mk 9 0, Card.mk 8 1, Card.mk 7 2, Card.mk 6 3, Card.mk 5 0])
      (evaluateFive [Card.mk 14 0, Card.mk 5 1, Card.mk 4 2, Card.mk 3 3, Card.mk 2 0]) =
      true := by
  decide

/-- C7 (amended): the bid recorded by AuctionGame.play is the response
clamped into `[0, budget]` (lower bound 0, not a positive minimum), and
the clamp StrategyEngine applies to its own responses is at least 0.001. -/
theorem auction_recorded_bid_clamped (bidAmount budget : ℚ) (h : 0 ≤ budget) :
    0 ≤ recordedBid bidAmount budget ∧
    recordedBid bidAmount budget ≤ budget ∧
    1 / 1000 ≤ engineBidClamp bidAmount budget := by
  refine ⟨le_max_left _ _, ?_, le_max_right _ _⟩
  unfold recordedBid
  exact max_le h (min_le_right _ _)

/-- Witness for C7 at a concrete response and budget. -/
theorem auction_recorded_bid_clamped_witness :
    0 ≤ recordedBid (-5) 1 ∧ recordedBid (-5) 1 ≤ 1 ∧
      1 / 1000 ≤ engineBidClamp (-5) 1 :=
  auction_recorded_bid_clamped (-5) 1 (by norm_num)

/-- C7 (counterexample): a provider response of 0 is recorded as a bid of
exactly 0, which is neither strictly positive nor at least any fixed
positive minimum. -/
theorem auction_zero_bid_recorded :
    recordedBid 0 1 = 0 ∧ ¬ 0 < recordedBid 0 1 := by
  constructor
  · unfold recordedBid
    norm_num
  · unfold recordedBid
    norm_num

/-- C5 (amended): the fold-to-check coercion lives in
StrategyEngine.decide_poker_action: no decision it returns is "fold" when
the to-call is non-positive. (The betting round itself honors any fold it
receives; see the counterexample.) -/
theorem strategy_engine_never_folds_for_free (raw : Option String) (toCall : ℚ)
    (h : toCall ≤ 0) : validatePokerAction raw toCall ≠ "fold" := by
  unfold validatePokerAction
  simp only [decide_eq_true h, Bool.and_true]
  by_cases hc : raw.getD "fold" = "fold" <;>
    by_cases h2 : raw.getD "fold" = "call" <;>
      by_cases h3 : raw.getD "fold" = "raise" <;>
        simp [hc, h2, h3]

/-- Witness for C5 at the concrete response "fold" with to-call 0. -/
theorem strategy_engine_never_folds_for_free_witness :
    validatePokerAction (some "fold") 0 ≠ "fold" :=
  strategy_engine_never_folds_for_free (some "fold") 0 (by norm_num)

/-- C5 (counterexample): a Decision Provider that answers "fold" at the
betting round is honored even though the acting player's to-call is 0: the
post-flop round with an always-fold provider ends with the small blind
recorded as the folder while owing nothing. -/
theorem betting_round_honors_free_fold :
    (runBettingRound 1 2 false 100 100 3 (fun _ => PAction.fold)).1 = some true ∧
    (runBettingRound 1 2 false 100 100 3 (fun _ => PAction.fold)).2.1.sbToCall = 0 := by
  norm_num [runBettingRound, runPasses, stepPlayer, writeRaise, writeCall, setActed, betDone]

/-- C6 (code bug): _emit has no handler around the callback invocation, so
a callback failure propagates: emission returns the error instead of
discarding it, and play aborts during its opening rpg_init emission
instead of completing. -/
theorem emit_propagates_callback_failure :
    emitCB (some fun _ => Except.error ()) "rpg_init" = Except.error () ∧
    playStart (some fun _ => Except.error ()) "A" "B" "warrior" "mage" =
      Except.error () := by
  exact ⟨rfl, rfl⟩

/-- C3 (counterexample): a post-flop raise war exhausts the 4-pass cap and
the round ends without a fold while the small blind still owes the last
raise, so the to-call amounts are not both zero at the end of the street. -/
theorem betting_round_cap_leaves_tocall :
    (runBettingRound 1 2 false 100 100 3 (fun _ => PAction.raiseTo 2)).1 = none ∧
    ¬ (runBettingRound 1 2 false 100 100 3 (fun _ => PAction.raiseTo 2)).2.1.sbToCall
        = 0 := by
  norm_num [runBettingRound, runPasses, stepPlayer, writeRaise, writeCall, setActed, betDone]

/-- C9: the reset deck holds the 52 distinct rank-suit combinations, and
for any shuffle (permutation) of it, the two 2-card hole hands and the up
to 5 community cards dealt by play() are pairwise disjoint with no card
repeated anywhere. -/
theorem poker_deal_distinct (d : List Card) (k : Nat)
    (hperm : d.Perm fullDeck) (hk : k ≤ 5) :
    fullDeck.length = 52 ∧ fullDeck.Nodup ∧ (dealtCards d k).Nodup := by
  have hfull : fullDeck.Nodup := by decide
  have hd : d.Nodup := hperm.nodup_iff.mpr hfull
  refine ⟨by decide, hfull, ?_⟩
  have he : dealtCards d k = d.take (2 + (2 + k)) := by
    simp only [dealtCards, deal]
    rw [List.take_add, List.take_add, List.drop_drop, List.append_assoc]
  rw [he]
  exact hd.sublist (List.take_sublist _ _)

/-- Witness for C9: the unshuffled deck itself with all five community
cards dealt. -/
theorem poker_deal_distinct_witness :
    fullDeck.length = 52 ∧ fullDeck.Nodup ∧ (dealtCards fullDeck 5).Nodup :=
  poker_deal_distinct fullDeck 5 (List.Perm.refl _) (by norm_num)

/-- C8: two DoT entries (d1, t1 turns) and (d2, t2 turns) with t1 < t2 on
one fighter tick and expire independently: each of the first t1 ticks
deals d1 + d2, after which the first entry is gone while the second keeps
dealing d2 per tick at its original damage until its own t2 ticks are
spent; and applying a DoT ability (rogue poison_blade) appends a fresh
independent entry without merging or refreshing existing ones. -/
theorem dots_tick_independently (f : Fighter) (d1 d2 : Int) (t1 t2 : Nat)
    (hdots : f.dots = [{ damage := d1, turns := (t1 : Int) },
                       { damage := d2, turns := (t2 : Int) }])
    (h1 : 0 < t1) (h12 : t1 < t2) :
    (∀ k, k < t1 → tickDamageAt f k = d1 + d2) ∧
    (∀ k, t1 ≤ k → k < t2 → tickDamageAt f k = d2) ∧
    (afterTicks f t1).dots = [{ damage := d2, turns := (t2 : Int) - t1 }] ∧
    (afterTicks f t2).dots = [] ∧
    (∀ a g : Fighter, a.className = "rogue" →
      (resolveAbility a g "poison_blade").2.dots =
        g.dots ++ [{ damage := 8, turns := 3 }]) := by
  have hiter : ∀ k : Nat, (afterTicks f k).dots =
      (if k < t1 then [{ damage := d1, turns := (t1 : Int) - k }] else []) ++
      (if k < t2 then [{ damage := d2, turns := (t2 : Int) - k }] else []) := by
    intro k
    rw [afterTicks_dots, hdots, dotsIter_pair d1 d2 t1 t2 h1 h12 k]
  refine ⟨?_, ?_, ?_, ?_, ?_⟩
  · intro k hk
    rw [tickDamageAt, tickEffects_fst, hiter k, if_pos hk, if_pos (hk.trans h12)]
    simp
  · intro k hk1 hk2
    rw [tickDamageAt, tickEffects_fst, hiter k,
      if_neg (by omega : ¬ k < t1), if_pos hk2]
    simp
  · rw [hiter t1, if_neg (by omega : ¬ t1 < t1), if_pos h12]
    simp
  · rw [hiter t2, if_neg (by omega : ¬ t2 < t1), if_neg (by omega : ¬ t2 < t2)]
    simp
  · intro a g ha
    simp [resolveAbility, ha, classFor, rogueT, spendMP, applyDamage]

/-- Witness for C8: a rogue carrying an 8-damage 3-turn and a 6-damage
5-turn entry. -/
theorem dots_tick_independently_witness :
    (∀ k, k < 3 → tickDamageAt
        { address := "A", className := "rogue", name := "Rogue", hp := 90,
          maxHp := 90, mp := 60, maxMp := 60, atk := 16, defense := 10,
          speed := 16, buffs := [],
          dots := [{ damage := 8, turns := (3 : Int) },
                   { damage := 6, turns := (5 : Int) }],
          isDefending := false } k = 8 + 6) ∧
    (∀ k, 3 ≤ k → k < 5 → tickDamageAt
        { address := "A", className := "rogue", name := "Rogue", hp := 90,
          maxHp := 90, mp := 60, maxMp := 60, atk := 16, defense := 10,
          speed := 16, buffs := [],
          dots := [{ damage := 8, turns := (3 : Int) },
                   { damage := 6, turns := (5 : Int) }],
          isDefending := false } k = 6) ∧
    (afterTicks
        { address := "A", className := "rogue", name := "Rogue", hp := 90,
          maxHp := 90, mp := 60, maxMp := 60, atk := 16, defense := 10,
          speed := 16, buffs := [],
          dots := [{ damage := 8, turns := (3 : Int) },
                   { damage := 6, turns := (5 : Int) }],
          isDefending := false } 3).dots = [{ damage := 6, turns := (5 : Int) - 3 }] ∧
    (afterTicks
        { address := "A", className := "rogue", name := "Rogue", hp := 90,
          maxHp := 90, mp := 60, maxMp := 60, atk := 16, defense := 10,
          speed := 16, buffs := [],
          dots := [{ damage := 8, turns := (3 : Int) },
                   { damage := 6, turns := (5 : Int) }],
          isDefending := false } 5).dots = [] ∧
    (∀ a g : Fighter, a.className = "rogue" →
      (resolveAbility a g "poison_blade").2.dots =
        g.dots ++ [{ damage := 8, turns := 3 }]) :=
  dots_tick_independently
    { address := "A", className := "rogue", name := "Rogue", hp := 90,
      maxHp := 90, mp := 60, maxMp := 60, atk := 16, defense := 10,
      speed := 16, buffs := [],
      dots := [{ damage := 8, turns := (3 : Int) },
               { damage := 6, turns := (5 : Int) }],
      isDefending := false } 8 6 3 5 rfl (by norm_num) (by norm_num)

/-- C4: HP and MP stay inside [0, max] after every state-mutating step of
the combat resolution: DoT application at the start of an action (on the
ticked fighter), MP spend, defend MP restore, heal, cleanse heal, and
damage application — both directly for each step with a nonnegative
amount, and through _resolve_ability for any ability name, for both
fighters. -/
theorem rpg_hp_mp_clamped (f a d : Fighter) (n : String) (amt : Int)
    (hf : hpmpInvar f) (ha : hpmpInvar a) (hd : hpmpInvar d)
    (hamt : 0 ≤ amt) (hdn : dotsNonneg f) :
    hpmpInvar (applyDamage f amt) ∧
    hpmpInvar (spendMP f amt) ∧
    hpmpInvar (restoreMP f amt) ∧
    hpmpInvar (healHP f amt) ∧
    hpmpInvar (healHP (cleanseEffects f) amt) ∧
    hpmpInvar (applyDamage (tickEffects f).2 (tickEffects f).1) ∧
    hpmpInvar (resolveAbility a d n).1 ∧
    hpmpInvar (resolveAbility a d n).2 := by
  obtain ⟨h1, h2⟩ := hpmp_resolveAbility a d n ha hd
  refine ⟨hpmp_applyDamage f amt hf hamt, hpmp_spendMP f amt hf hamt,
    hpmp_restoreMP f amt hf hamt, hpmp_healHP f amt hf hamt,
    hpmp_healHP _ amt (hpmp_cleanseEffects f hf) hamt, ?_, h1, h2⟩
  refine hpmp_applyDamage _ _ hf ?_
  rw [tickEffects_fst]
  refine List.sum_nonneg ?_
  intro x hx
  obtain ⟨dt, hdt, hxeq⟩ := List.mem_map.mp hx
  exact hxeq ▸ hdn dt hdt

/-- Witness for C4: a damaged warrior carrying a DoT entry resolving
berserk against a defending mage, with amount 5. -/
theorem rpg_hp_mp_clamped_witness :
    hpmpInvar (applyDamage sampleAttacker 5) ∧
    hpmpInvar (spendMP sampleAttacker 5) ∧
    hpmpInvar (restoreMP sampleAttacker 5) ∧
    hpmpInvar (healHP sampleAttacker 5) ∧
    hpmpInvar (healHP (cleanseEffects sampleAttacker) 5) ∧
    hpmpInvar (applyDamage (tickEffects sampleAttacker).2
      (tickEffects sampleAttacker).1) ∧
    hpmpInvar (resolveAbility sampleAttacker sampleDefender "berserk").1 ∧
    hpmpInvar (resolveAbility sampleAttacker sampleDefender "berserk").2 :=
  rpg_hp_mp_clamped sampleAttacker sampleAttacker sampleDefender "berserk" 5
    (by refine ⟨?_, ?_, ?_, ?_⟩ <;> norm_num [sampleAttacker])
    (by refine ⟨?_, ?_, ?_, ?_⟩ <;> norm_num [sampleAttacker])
    (by refine ⟨?_, ?_, ?_, ?_⟩ <;> norm_num [sampleDefender])
    (by norm_num)
    (by intro dt hdt; simp [sampleAttacker] at hdt; simp [hdt])

/-- C1: for a 6- or 7-card input, evaluate_hand returns exactly the
maximum, under the HandScore total order (category first, then
lexicographic tiebreak), of the `_evaluate_five` scores of all C(n,5)
five-card subsets. -/
theorem poker_evaluate_hand_is_max (cards : List Card)
    (h : cards.length = 6 ∨ cards.length = 7) :
    evaluateHand cards ∈ (cards.sublistsLen 5).map evaluateFive ∧
    ∀ s ∈ (cards.sublistsLen 5).map evaluateFive,
      scoreLe s (evaluateHand cards) := by
  have h5 : ¬ cards.length < 5 := by rcases h with h | h <;> omega
  have hEH : evaluateHand cards =
      ((cards.sublistsLen 5).map evaluateFive).foldl betterOf (-1, []) := by
    rw [evaluateHand, if_neg h5]
  have hne : ((cards.sublistsLen 5).map evaluateFive) ≠ [] := by
    intro hnil
    have hlen := congrArg List.length hnil
    rw [List.length_map, List.length_sublistsLen, List.length_nil] at hlen
    rcases h with h | h <;> rw [h] at hlen <;> exact absurd hlen (by decide)
  have hub : ∀ s ∈ (cards.sublistsLen 5).map evaluateFive,
      scoreLt (evaluateHand cards) s = false := by
    intro s hs
    rw [hEH]
    exact foldl_betterOf_ub _ _ s hs
  have hmem : evaluateHand cards ∈ (cards.sublistsLen 5).map evaluateFive := by
    rcases foldl_betterOf_mem ((cards.sublistsLen 5).map evaluateFive)
        (-1, []) with hinit | hm
    · exfalso
      obtain ⟨s0, hs0⟩ := List.exists_mem_of_ne_nil _ hne
      have hub0 := hub s0 hs0
      rw [hEH, hinit] at hub0
      obtain ⟨c0, _, hc0⟩ := List.mem_map.mp hs0
      have hr : 0 ≤ s0.1 := hc0 ▸ evaluateFive_rank_nonneg c0
      have : scoreLt (-1, ([] : List Int)) s0 = true := by
        simp only [scoreLt, Bool.or_eq_true, decide_eq_true_eq]
        exact Or.inl (by omega)
      rw [this] at hub0
      cases hub0
    · rw [hEH]
      exact hm
  refine ⟨hmem, ?_⟩
  intro s hs
  rcases scoreLt_total s (evaluateHand cards) with hx | hx | hx
  · exact Or.inl hx
  · exact absurd hx (by rw [hub s hs]; exact Bool.false_ne_true)
  · exact Or.inr hx

/-- Witness for C1: a concrete 7-card hand (the full-house board used by
the repository's own best-5-of-7 test). -/
theorem poker_evaluate_hand_is_max_witness :
    evaluateHand [Card.mk 14 0, Card.mk 14 1, Card.mk 14 2, Card.mk 13 3,
        Card.mk 13 0, Card.mk 3 1, Card.mk 7 2] ∈
      (([Card.mk 14 0, Card.mk 14 1, Card.mk 14 2, Card.mk 13 3,
        Card.mk 13 0, Card.mk 3 1, Card.mk 7 2]).sublistsLen 5).map evaluateFive ∧
    ∀ s ∈ (([Card.mk 14 0, Card.mk 14 1, Card.mk 14 2, Card.mk 13 3,
        Card.mk 13 0, Card.mk 3 1, Card.mk 7 2]).sublistsLen 5).map evaluateFive,
      scoreLe s (evaluateHand [Card.mk 14 0, Card.mk 14 1, Card.mk 14 2,
        Card.mk 13 3, Card.mk 13 0, Card.mk 3 1, Card.mk 7 2]) :=
  poker_evaluate_hand_is_max
    [Card.mk 14 0, Card.mk 14 1, Card.mk 14 2, Card.mk 13 3, Card.mk 13 0,
      Card.mk 3 1, Card.mk 7 2] (Or.inr rfl)

/-- C3 (amended): for every street (preflop or not), blinds 0 ≤ sb ≤ bb and
nonnegative stacks, when the betting round ends without a fold both
has-acted flags are true; and both to-call amounts are zero whenever the
round ended via the street-completion check (at the 4-pass cap a to-call
may remain positive — see the counterexample). -/
theorem betting_round_flags (smallBlind bigBlind : ℚ) (preflop : Bool)
    (stackSB stackBB pot0 : ℚ) (dec : Nat → PAction)
    (hsb0 : 0 ≤ smallBlind) (hsbb : smallBlind ≤ bigBlind)
    (hstA : 0 ≤ stackSB) (hstB : 0 ≤ stackBB)
    (out : BetSt) (brk : Bool)
    (hrun : runBettingRound smallBlind bigBlind preflop stackSB stackBB pot0 dec
      = (none, out, brk)) :
    (out.sbActed = true ∧ out.bbActed = true) ∧
    (brk = true → out.sbToCall = 0 ∧ out.bbToCall = 0) := by
  unfold runBettingRound at hrun
  have hflags := runPasses_none_flags bigBlind dec 3 _ 0 out brk hrun
  refine ⟨hflags, ?_⟩
  intro hbrk
  subst hbrk
  have hdone := runPasses_brk_done bigBlind dec 4 _ 0 out hrun
  have hinit : nonnegSt
      { sbStack := stackSB, bbStack := stackBB, pot := pot0,
        sbToCall := if preflop then bigBlind - smallBlind else 0,
        bbToCall := 0, sbActed := false, bbActed := false } := by
    refine ⟨?_, le_refl 0, hstA, hstB⟩
    show (0 : ℚ) ≤ if preflop = true then bigBlind - smallBlind else 0
    split_ifs
    · linarith
    · exact le_refl 0
  have hnn := runPasses_nonneg bigBlind dec (hsb0.trans hsbb) 4 _ 0 none out
    true hrun hinit
  simp only [betDone, Bool.and_eq_true, decide_eq_true_eq] at hdone
  obtain ⟨⟨⟨-, -⟩, hC⟩, hD⟩ := hdone
  obtain ⟨hn1, hn2, -, -⟩ := hnn
  constructor <;> linarith

/-- Witness for C3 at a concrete preflop street where both players call. -/
theorem betting_round_flags_witness :
    (stAfterCalls.sbActed = true ∧ stAfterCalls.bbActed = true) ∧
    (true = true → stAfterCalls.sbToCall = 0 ∧ stAfterCalls.bbToCall = 0) :=
  betting_round_flags 1 2 true 99 98 3 (fun _ => PAction.call)
    (by norm_num) (by norm_num) (by norm_num) (by norm_num)
    stAfterCalls true
    (by norm_num [runBettingRound, runPasses, stepPlayer, writeRaise,
      writeCall, setActed, betDone, stAfterCalls])

end MonadArena
